import Mathlib

/-!
Verification of the MS80 entity-serialization extension of hecs
(`src/ms80/mod.rs`), as a shallow embedding in Lean 4.

Machine integers are modelled as `Nat` with explicit `% 2 ^ 32` / `% 2 ^ 64`
where the source's `u32`/`u64` width matters.  The entity handle carries the
invariants of the Rust representation as proof fields: `id : u32`,
`generation : NonZeroU32` (so `id < 2 ^ 32`, `generation < 2 ^ 32` and
`0 < generation`).  The process-wide `OnceLock` registry becomes explicit
state passing (`Option EntitySerialization`), and the serde data exchanged
with the wire is abstracted as `WireValue` (a `u64` or a string), with
fallible decoding in `Except String`.
-/

/-- An entity handle as hecs stores it: the slot index `id` is a `u32`
and `generation` a `NonZeroU32` (the bound and non-zero invariants are
proof fields of the structure, matching the Rust field types). -/
structure Entity where
  id : Nat
  generation : Nat
  id_lt : id < 2 ^ 32
  generation_lt : generation < 2 ^ 32
  generation_pos : 0 < generation

instance : DecidableEq Entity := fun a b =>
  if h : a.id = b.id ∧ a.generation = b.generation then
    .isTrue (by
      obtain ⟨x, y, p1, p2, p3⟩ := a
      obtain ⟨u, w, q1, q2, q3⟩ := b
      obtain ⟨h1, h2⟩ := h
      dsimp only at h1 h2
      subst h1
      subst h2
      rfl)
  else
    .isFalse (fun hab => h (by cases hab; exact ⟨rfl, rfl⟩))

/-- Modelled from the spec: `unpack(bits: u64) -> Option<Handle>`, packed
form "high 32 bits = generation, low 32 bits = slot", failing when the
generation field is zero.  (The source's `Entity::from_bits` lives in the
hecs core, outside the provided files; `from_id_generation` in
`src/ms80/mod.rs` calls it.) -/
def Entity.from_bits (bits : Nat) : Option Entity :=
  if h : bits % 2 ^ 64 / 2 ^ 32 = 0 then none
  else
    some
      { id := bits % 2 ^ 64 % 2 ^ 32
        generation := bits % 2 ^ 64 / 2 ^ 32
        id_lt := Nat.mod_lt _ (Nat.two_pow_pos 32)
        generation_lt := by
          refine Nat.div_lt_of_lt_mul ?_
          calc bits % 2 ^ 64 < 2 ^ 64 := Nat.mod_lt _ (Nat.two_pow_pos 64)
            _ = 2 ^ 32 * 2 ^ 32 := by norm_num
        generation_pos := Nat.pos_of_ne_zero h }

/-- Modelled from the spec: `pack(handle) -> u64`:
`(generation as u64) << 32 | (slot as u64)`.  (The source's
`Entity::to_bits` lives in the hecs core, outside the provided files.) -/
def pack (e : Entity) : Nat := (e.generation <<< 32) ||| e.id

/-- `Entity::from_id_generation` in `src/ms80/mod.rs`:
`(generation as u64) << 32 | id as u64`, then `Self::from_bits`.
The `% 2 ^ 32` model the `u32` type of both arguments. -/
def Entity.from_id_generation (id generation : Nat) : Option Entity :=
  Entity.from_bits (((generation % 2 ^ 32) <<< 32) ||| (id % 2 ^ 32))

/-- The digit characters Rust's decimal formatting and parsing use:
`'0'` is code point 48. -/
def digitChar (d : Nat) : Char := Char.ofNat (48 + d)

/-- The accumulator loop of Rust's `from_str_radix` at radix 10:
`result = result * 10 + digit`. -/
def parseDigitsVal (s : List Char) : Nat :=
  s.foldl (fun acc c => acc * 10 + (c.toNat - 48)) 0

/-- The sign handling of Rust's unsigned `from_str_radix`: one leading
`'+'` is dropped; anything else (a `'-'` included) is left for the digit
check to reject. -/
def stripPlus (s : List Char) : List Char :=
  match s with
  | [] => []
  | c :: rest => if c = '+' then rest else c :: rest

/-- `str::parse::<u32>` on the source's split parts: after the optional
sign the input must be non-empty, all ASCII digits, and the value must fit
in a `u32` (Rust reports overflow as an error, so a final bound check is
equivalent). -/
def parseU32 (s : List Char) : Option Nat :=
  let digits := stripPlus s
  if digits = [] then none
  else if digits.all Char.isDigit then
    if parseDigitsVal digits < 2 ^ 32 then some (parseDigitsVal digits) else none
  else none

/-- `s.splitn(2, 'v')` reduced to what `Entity::parse` reads from it: the
text before the first `'v'`, and — when a `'v'` occurs — everything after
that first `'v'`. -/
def splitFirstV : List Char → List Char × Option (List Char)
  | [] => ([], none)
  | c :: rest =>
    if c = 'v' then ([], some rest)
    else
      let r := splitFirstV rest
      (c :: r.1, r.2)

/-- The element sequence the `splitn(2, 'v')` iterator yields (one part
when the string has no `'v'`, two parts otherwise); `Entity::parse` reads
it with two `next()` calls. -/
def splitn2V (s : List Char) : List (List Char) :=
  match splitFirstV s with
  | (a, none) => [a]
  | (a, some b) => [a, b]

/-- `Entity::parse` in `src/ms80/mod.rs`: split on the first `'v'`, parse
both parts as `u32`, then `from_id_generation`.  The `none` branch on
`head?` models the source's `unwrap` of the first `next()` (proved
unreachable below). -/
def Entity.parse (s : List Char) : Option Entity :=
  let parts := splitn2V s
  match parts.head? with
  | none => none
  | some first =>
    match parseU32 first with
    | none => none
    | some id =>
      match parts[1]? with
      | none => none
      | some second =>
        match parseU32 second with
        | none => none
        | some generation => Entity.from_id_generation id generation

/-- The digit loop of Rust's decimal `Display` for unsigned integers,
fuel-structured: emits the digits of `n` most-significant first in front
of `acc`.  `natRepr` supplies enough fuel for every `n`. -/
def natReprAux : Nat → Nat → List Char → List Char
  | 0, _, acc => acc
  | fuel + 1, n, acc =>
    if n / 10 = 0 then digitChar (n % 10) :: acc
    else natReprAux fuel (n / 10) (digitChar (n % 10) :: acc)

/-- Rust's `format!("{}", n)` for an unsigned integer: decimal digits,
no sign, `"0"` for zero. -/
def natRepr (n : Nat) : List Char := natReprAux (n + 1) n []

/-- The label `format!("{}v{}", self.id(), self.generation())` built by
`impl Serialize for Entity` (and the spec's `to_text`). -/
def entityLabel (e : Entity) : List Char :=
  natRepr e.id ++ 'v' :: natRepr e.generation

/-- A value on the serde wire, abstracted to the two shapes this module
produces and consumes: a `u64` or a string. -/
inductive WireValue where
  | num : Nat → WireValue
  | text : List Char → WireValue
deriving DecidableEq

deriving instance DecidableEq for Except

/-- The `EntitySerialization` trait of `src/ms80/mod.rs`: a host-installed
mapping with `entity_to_id`, `id_to_entity` and `is_deserializing`. -/
structure EntitySerialization where
  entity_to_id : Entity → Option Nat
  id_to_entity : Nat → Option Entity
  is_deserializing : Bool

/-- `set_entity_serialization` in `src/ms80/mod.rs`:
`SERIALIZATION.set(Box::new(value)).is_ok()`.  The process-wide `OnceLock`
is passed explicitly: the function returns the slot after the call
together with the `bool` the source returns (a `OnceLock` keeps its first
value and `set` fails once it is occupied). -/
def set_entity_serialization (slot : Option EntitySerialization)
    (value : EntitySerialization) : Option EntitySerialization × Bool :=
  match slot with
  | none => (some value, true)
  | some old => (some old, false)

/-- `impl Serialize for Entity`: with an installed mapping that accepts
the entity, `serializer.serialize_u64(id)`; otherwise the textual label.
`slot` is the state of the `SERIALIZATION` `OnceLock`. -/
def Entity.serialize (slot : Option EntitySerialization) (e : Entity) :
    WireValue :=
  match slot with
  | some serialization =>
    match serialization.entity_to_id e with
    | some id => .num id
    | none => .text (entityLabel e)
  | none => .text (entityLabel e)

/-- `EntityHandleVisitor::visit_u64`: the installed mapping's
`id_to_entity` first, then `Entity::from_bits`, else the
"invalid hecs entity ID" error. -/
def visit_u64 (slot : Option EntitySerialization) (id : Nat) :
    Except String Entity :=
  match slot.bind (fun ser => ser.id_to_entity id) with
  | some entity => .ok entity
  | none =>
    match Entity.from_bits id with
    | some entity => .ok entity
    | none => .error "invalid hecs entity ID"

/-- `deserializer.deserialize_u64(EntityHandleVisitor)`: the visitor only
implements `visit_u64`, so a numeric wire value reaches it and any other
shape is a serde type error. -/
def deserialize_u64 (slot : Option EntitySerialization) (v : WireValue) :
    Except String Entity :=
  match v with
  | .num id => visit_u64 slot id
  | .text _ => .error "invalid type: string, expected an integer entity ID"

/-- `String::deserialize`: accepts exactly a textual wire value. -/
def stringDeserialize (v : WireValue) : Except String (List Char) :=
  match v with
  | .text s => .ok s
  | .num _ => .error "invalid type: integer, expected a string"

/-- The textual fallthrough of `impl Deserialize for Entity`:
`String::deserialize`, then `Entity::parse`, else the "invalid entity"
error. -/
def Entity.deserializeText (v : WireValue) : Except String Entity :=
  match stringDeserialize v with
  | .error e => .error e
  | .ok label =>
    match Entity.parse label with
    | some handle => .ok handle
    | none => .error "invalid entity"

/-- `impl Deserialize for Entity`: with an installed mapping whose
`is_deserializing()` is true, commit to `deserialize_u64`; otherwise the
textual path. -/
def Entity.deserialize (slot : Option EntitySerialization) (v : WireValue) :
    Except String Entity :=
  match slot with
  | some serialization =>
    if serialization.is_deserializing then deserialize_u64 slot v
    else Entity.deserializeText v
  | none => Entity.deserializeText v

/-- The handle with slot 7 and generation 3 used by the spec's examples. -/
def handle73 : Entity :=
  { id := 7, generation := 3
    id_lt := by decide
    generation_lt := by decide
    generation_pos := by decide }

/-- A mapping that declines every entity and every id but asks for
numeric decoding; used to instantiate the decode-path theorems. -/
def declineAll : EntitySerialization :=
  { entity_to_id := fun _ => none
    id_to_entity := fun _ => none
    is_deserializing := true }
/-! ## Helper lemmas -/

theorem Entity.eq_of_parts {a b : Entity} (h1 : a.id = b.id)
    (h2 : a.generation = b.generation) : a = b := by
  obtain ⟨x, y, p1, p2, p3⟩ := a
  obtain ⟨u, w, q1, q2, q3⟩ := b
  dsimp only at h1 h2
  subst h1
  subst h2
  rfl

theorem shiftLeft32_lor (g i : Nat) (h : i < 2 ^ 32) :
    (g <<< 32) ||| i = g * 2 ^ 32 + i := by
  rw [Nat.shiftLeft_eq, Nat.mul_comm]
  exact (Nat.mul_add_lt_is_or h g).symm

theorem from_bits_pack_core (e : Entity) :
    Entity.from_bits (e.generation * 2 ^ 32 + e.id) = some e := by
  have hb : e.generation * 2 ^ 32 + e.id < 2 ^ 64 := by
    have h1 : e.generation * 2 ^ 32 + e.id < (e.generation + 1) * 2 ^ 32 := by
      have := e.id_lt
      ring_nf
      omega
    have h2 : (e.generation + 1) * 2 ^ 32 ≤ 2 ^ 32 * 2 ^ 32 :=
      Nat.mul_le_mul_right _ e.generation_lt
    calc e.generation * 2 ^ 32 + e.id < (e.generation + 1) * 2 ^ 32 := h1
      _ ≤ 2 ^ 32 * 2 ^ 32 := h2
      _ = 2 ^ 64 := by norm_num
  have hmod : (e.generation * 2 ^ 32 + e.id) % 2 ^ 64 =
      e.generation * 2 ^ 32 + e.id := Nat.mod_eq_of_lt hb
  have hdiv : (e.generation * 2 ^ 32 + e.id) / 2 ^ 32 = e.generation := by
    rw [Nat.mul_comm e.generation (2 ^ 32), Nat.mul_add_div (Nat.two_pow_pos 32),
      Nat.div_eq_of_lt e.id_lt, Nat.add_zero]
  have hm2 : (e.generation * 2 ^ 32 + e.id) % 2 ^ 32 = e.id := by
    rw [Nat.mul_comm e.generation (2 ^ 32), Nat.mul_add_mod,
      Nat.mod_eq_of_lt e.id_lt]
  rw [Entity.from_bits]
  rw [dif_neg (by rw [hmod, hdiv]; exact e.generation_pos.ne')]
  refine congrArg some (Entity.eq_of_parts ?_ ?_) <;> dsimp only
  · rw [hmod, hm2]
  · rw [hmod, hdiv]

theorem from_id_generation_self (e : Entity) :
    Entity.from_id_generation e.id e.generation = some e := by
  rw [Entity.from_id_generation, Nat.mod_eq_of_lt e.generation_lt,
    Nat.mod_eq_of_lt e.id_lt, shiftLeft32_lor _ _ e.id_lt]
  exact from_bits_pack_core e

/-- C1: for every slot `s` (any u32) and generation `g` with
`1 <= g <= u32::MAX`, unpacking the packed value `(g << 32) | s` yields
exactly the handle with slot `s` and generation `g`:
`unpack (pack (handle s g)) = some (handle s g)`. -/
theorem pack_unpack_round_trip (s g : Nat) (hs : s < 2 ^ 32) (hg1 : 0 < g)
    (hg2 : g < 2 ^ 32) :
    Entity.from_bits (pack ⟨s, g, hs, hg2, hg1⟩) = some ⟨s, g, hs, hg2, hg1⟩ := by
  rw [pack, shiftLeft32_lor _ _ hs]
  exact from_bits_pack_core ⟨s, g, hs, hg2, hg1⟩

/-- Witness for C1 at slot 7, generation 3. -/
theorem pack_unpack_round_trip_witness :
    Entity.from_bits (pack handle73) = some handle73 :=
  pack_unpack_round_trip 7 3 (by decide) (by decide) (by decide)

/-- C2: on a fresh (empty) registry the first install returns true, and
every install against an occupied registry returns false and leaves the
already-installed mapping in place (so `current()` never reflects the
rejected mapping). -/
theorem single_install_invariant (A : EntitySerialization) :
    set_entity_serialization none A = (some A, true)
  ∧ ∀ (installed B : EntitySerialization),
      set_entity_serialization (some installed) B = (some installed, false) :=
  ⟨rfl, fun _ _ => rfl⟩

/-- C3: encoding emits the mapping's `entity_to_id` value as a plain u64
whenever a mapping is installed and accepts the handle; in every other
case (no mapping, or the mapping declines) it emits the textual label, so
encoding is total. -/
theorem serialize_prefers_mapping (slot : Option EntitySerialization)
    (e : Entity) :
    (∀ m id, slot = some m → m.entity_to_id e = some id →
      Entity.serialize slot e = .num id)
  ∧ (∀ m, slot = some m → m.entity_to_id e = none →
      Entity.serialize slot e = .text (entityLabel e))
  ∧ (slot = none → Entity.serialize slot e = .text (entityLabel e)) := by
  refine ⟨fun m id hm hid => ?_, fun m hm hid => ?_, fun hm => ?_⟩ <;> subst hm
  · simp [Entity.serialize, hid]
  · simp [Entity.serialize, hid]
  · simp [Entity.serialize]

/-- C4: with an installed mapping whose `prefers_numeric_decode()` is
true, decoding commits to the u64 form (a textual wire value is a type
error, never a fallback); the integer goes through `id_to_entity` first,
then `unpack`, and fails with the invalid-identifier error when both
decline. -/
theorem numeric_decode_contract (m : EntitySerialization)
    (hm : m.is_deserializing = true) :
    (∀ id e, m.id_to_entity id = some e →
      Entity.deserialize (some m) (.num id) = .ok e)
  ∧ (∀ id e, m.id_to_entity id = none → Entity.from_bits id = some e →
      Entity.deserialize (some m) (.num id) = .ok e)
  ∧ (∀ id, m.id_to_entity id = none → Entity.from_bits id = none →
      Entity.deserialize (some m) (.num id) = .error "invalid hecs entity ID")
  ∧ (∀ s, Entity.deserialize (some m) (.text s) =
      .error "invalid type: string, expected an integer entity ID") := by
  refine ⟨fun id e hid => ?_, fun id e hid hbits => ?_, fun id hid hbits => ?_,
    fun s => ?_⟩
  · simp [Entity.deserialize, hm, deserialize_u64, visit_u64, hid]
  · simp [Entity.deserialize, hm, deserialize_u64, visit_u64, hid, hbits]
  · simp [Entity.deserialize, hm, deserialize_u64, visit_u64, hid, hbits]
  · simp [Entity.deserialize, hm, deserialize_u64]

/-- Witness for C4 with a mapping that declines every id but prefers
numeric decoding. -/
theorem numeric_decode_contract_witness :
    Entity.deserialize (some declineAll) (.num (3 * 2 ^ 32 + 7)) = .ok handle73
  ∧ Entity.deserialize (some declineAll) (.num 5) =
      .error "invalid hecs entity ID"
  ∧ Entity.deserialize (some declineAll) (.text ['7', 'v', '3']) =
      .error "invalid type: string, expected an integer entity ID" := by
  have h := numeric_decode_contract declineAll rfl
  exact ⟨h.2.1 _ handle73 rfl (by decide), h.2.2.1 5 rfl (by decide),
    h.2.2.2 ['7', 'v', '3']⟩

/-- C6: `unpack 0` fails, `unpack` of any value whose high 32 bits (the
generation field) are zero fails, and no decode path ever yields a handle
with generation zero. -/
theorem zero_generation_rejected :
    Entity.from_bits 0 = none
  ∧ (∀ bits, bits < 2 ^ 32 → Entity.from_bits bits = none)
  ∧ (∀ slot v e, Entity.deserialize slot v = .ok e → 0 < e.generation) := by
  refine ⟨by decide, fun bits hb => ?_, fun slot v e _ => e.generation_pos⟩
  have h1 : bits % 2 ^ 64 = bits :=
    Nat.mod_eq_of_lt (lt_trans hb (by norm_num))
  rw [Entity.from_bits, dif_pos (by rw [h1]; exact Nat.div_eq_of_lt hb)]

/-- C8: with no mapping installed, `handle73` encodes to the text
`"7v3"`, that text decodes back to `handle73`, and decoding never reads
the numeric form (a numeric wire value is a type error of the textual
path). -/
theorem fallback_no_mapping :
    Entity.serialize none handle73 = .text ['7', 'v', '3']
  ∧ Entity.deserialize none (.text ['7', 'v', '3']) = .ok handle73
  ∧ (∀ v, Entity.deserialize none v = Entity.deserializeText v)
  ∧ (∀ n, Entity.deserialize none (.num n) =
      .error "invalid type: integer, expected a string") :=
  ⟨by decide, by decide, fun _ => rfl, fun _ => rfl⟩

theorem digitChar_toNat {d : Nat} (h : d < 10) : (digitChar d).toNat = 48 + d := by
  interval_cases d <;> decide

theorem digitChar_isDigit {d : Nat} (h : d < 10) : (digitChar d).isDigit = true := by
  interval_cases d <;> decide

theorem digitChar_ne_v {d : Nat} (h : d < 10) : digitChar d ≠ 'v' := by
  interval_cases d <;> decide

theorem digitChar_ne_plus {d : Nat} (h : d < 10) : digitChar d ≠ '+' := by
  interval_cases d <;> decide

theorem natReprAux_acc (fuel : Nat) :
    ∀ (n : Nat) (acc : List Char),
      natReprAux fuel n acc = natReprAux fuel n [] ++ acc := by
  induction fuel with
  | zero => intro n acc; rfl
  | succ fuel ih =>
    intro n acc
    rw [natReprAux, natReprAux]
    by_cases h : n / 10 = 0
    · rw [if_pos h, if_pos h]
      rfl
    · rw [if_neg h, if_neg h, ih (n / 10) (digitChar (n % 10) :: acc),
        ih (n / 10) [digitChar (n % 10)], List.append_assoc]
      rfl

theorem mem_natReprAux (fuel : Nat) :
    ∀ (n : Nat) (c : Char), c ∈ natReprAux fuel n [] →
      ∃ d, d < 10 ∧ c = digitChar d := by
  induction fuel with
  | zero => intro n c hc; cases hc
  | succ fuel ih =>
    intro n c hc
    rw [natReprAux] at hc
    by_cases h : n / 10 = 0
    · rw [if_pos h] at hc
      rcases hc with _ | ⟨_, h2⟩
      · exact ⟨n % 10, Nat.mod_lt _ (by decide), rfl⟩
      · cases h2
    · rw [if_neg h, natReprAux_acc, List.mem_append] at hc
      rcases hc with hc | hc
      · exact ih (n / 10) c hc
      · rcases hc with _ | ⟨_, h2⟩
        · exact ⟨n % 10, Nat.mod_lt _ (by decide), rfl⟩
        · cases h2

theorem mem_natRepr {n : Nat} {c : Char} (hc : c ∈ natRepr n) :
    ∃ d, d < 10 ∧ c = digitChar d :=
  mem_natReprAux (n + 1) n c hc

theorem natRepr_ne_nil (n : Nat) : natRepr n ≠ [] := by
  rw [natRepr, natReprAux]
  by_cases h : n / 10 = 0
  · rw [if_pos h]
    exact List.cons_ne_nil _ _
  · rw [if_neg h, natReprAux_acc]
    simp

theorem parseDigitsVal_snoc (l : List Char) (c : Char) :
    parseDigitsVal (l ++ [c]) = parseDigitsVal l * 10 + (c.toNat - 48) := by
  rw [parseDigitsVal, parseDigitsVal, List.foldl_append]
  rfl

theorem natReprAux_val (fuel : Nat) :
    ∀ n : Nat, n < 10 ^ fuel → parseDigitsVal (natReprAux fuel n []) = n := by
  induction fuel with
  | zero => intro n hn; interval_cases n; rfl
  | succ fuel ih =>
    intro n hn
    rw [natReprAux]
    by_cases h : n / 10 = 0
    · rw [if_pos h]
      have hn10 : n < 10 := by omega
      show 0 * 10 + ((digitChar (n % 10)).toNat - 48) = n
      rw [digitChar_toNat (Nat.mod_lt _ (by decide))]
      omega
    · rw [if_neg h, natReprAux_acc, parseDigitsVal_snoc,
        ih (n / 10) (Nat.div_lt_of_lt_mul (by rw [← pow_succ']; exact hn)),
        digitChar_toNat (Nat.mod_lt _ (by decide))]
      omega

theorem natRepr_val (n : Nat) : parseDigitsVal (natRepr n) = n := by
  refine natReprAux_val (n + 1) n ?_
  calc n < 10 ^ n := Nat.lt_pow_self (by decide) n
    _ ≤ 10 ^ (n + 1) := Nat.pow_le_pow_right (by decide) (Nat.le_succ n)

theorem stripPlus_natRepr (n : Nat) : stripPlus (natRepr n) = natRepr n := by
  rcases hl : natRepr n with _ | ⟨c, cs⟩
  · rfl
  · have hc : c ∈ natRepr n := by rw [hl]; exact List.mem_cons_self _ _
    obtain ⟨d, hd, rfl⟩ := mem_natRepr hc
    rw [stripPlus, if_neg (digitChar_ne_plus hd)]

theorem parseU32_natRepr {n : Nat} (h : n < 2 ^ 32) :
    parseU32 (natRepr n) = some n := by
  rw [parseU32]
  simp only [stripPlus_natRepr]
  rw [if_neg (natRepr_ne_nil n)]
  have hall : (natRepr n).all Char.isDigit = true := by
    rw [List.all_eq_true]
    intro c hc
    obtain ⟨d, hd, rfl⟩ := mem_natRepr hc
    exact digitChar_isDigit hd
  rw [if_pos hall, natRepr_val, if_pos h]

theorem v_not_mem_natRepr (n : Nat) : 'v' ∉ natRepr n := by
  intro hv
  obtain ⟨d, hd, hc⟩ := mem_natRepr hv
  exact digitChar_ne_v hd hc.symm

theorem splitFirstV_append {l1 : List Char} (l2 : List Char)
    (h : 'v' ∉ l1) : splitFirstV (l1 ++ 'v' :: l2) = (l1, some l2) := by
  induction l1 with
  | nil => rfl
  | cons c cs ih =>
    have hc : c ≠ 'v' := fun hc => h (hc ▸ List.mem_cons_self _ _)
    rw [List.cons_append, splitFirstV, if_neg hc,
      ih (fun hm => h (List.mem_cons_of_mem _ hm))]

theorem parse_label (e : Entity) : Entity.parse (entityLabel e) = some e := by
  rw [Entity.parse, entityLabel]
  have hsp := splitFirstV_append (natRepr e.generation) (v_not_mem_natRepr e.id)
  rw [splitn2V, hsp]
  show (match parseU32 (natRepr e.id) with
    | none => none
    | some id =>
      match parseU32 (natRepr e.generation) with
      | none => none
      | some generation => Entity.from_id_generation id generation) = some e
  rw [parseU32_natRepr e.id_lt, parseU32_natRepr e.generation_lt]
  exact from_id_generation_self e

/-- C5: for every valid handle the textual form round-trips
(`from_text (to_text h) = some h`), and the handle with slot 7 and
generation 3 renders exactly as `"7v3"`. -/
theorem text_round_trip :
    (∀ h : Entity, Entity.parse (entityLabel h) = some h)
  ∧ entityLabel handle73 = ['7', 'v', '3'] :=
  ⟨parse_label, by decide⟩

/-- C7: a successful `from_text` needs a `'v'`-split into two parts, both
parts parsing as u32, and a successful `unpack` of the packed value
(contrapositive: missing part, unparsable part or failing `unpack` makes
`from_text` fail); and `"abc"`, `"7"`, `"7vx"` are all rejected. -/
theorem malformed_text_rejected :
    (∀ s e, Entity.parse s = some e →
      ∃ first second id g,
        splitFirstV s = (first, some second)
        ∧ parseU32 first = some id
        ∧ parseU32 second = some g
        ∧ Entity.from_id_generation id g = some e)
  ∧ Entity.parse ['a', 'b', 'c'] = none
  ∧ Entity.parse ['7'] = none
  ∧ Entity.parse ['7', 'v', 'x'] = none := by
  refine ⟨fun s e h => ?_, by decide, by decide, by decide⟩
  rw [Entity.parse, splitn2V] at h
  rcases hsp : splitFirstV s with ⟨a, b⟩
  rw [hsp] at h
  rcases b with _ | second
  · simp only [List.head?_cons] at h
    rcases hpa : parseU32 a with _ | id
    · rw [hpa] at h
      simp at h
    · rw [hpa] at h
      simp at h
  · simp only [List.head?_cons] at h
    rcases hpa : parseU32 a with _ | id
    · rw [hpa] at h
      simp at h
    · rw [hpa] at h
      simp only [List.getElem?_cons_succ, List.getElem?_cons_zero] at h
      rcases hpg : parseU32 second with _ | g
      · rw [hpg] at h
        simp at h
      · rw [hpg] at h
        exact ⟨a, second, id, g, rfl, hpa, hpg, h⟩

/-- C9: the `splitn(2, 'v')` iterator always yields a first element (the
text before the first `'v'`), so the source's `unwrap` of the first
`next()` can never panic, and `parse` is total: it returns `some` or
`none` on every input string. -/
theorem split_never_panics (s : List Char) :
    (splitn2V s).head? = some (splitFirstV s).1
  ∧ ((∃ e, Entity.parse s = some e) ∨ Entity.parse s = none) := by
  constructor
  · rw [splitn2V]
    rcases hsp : splitFirstV s with ⟨a, b⟩
    rcases b with _ | second <;> rfl
  · rcases hp : Entity.parse s with _ | e
    · exact Or.inr rfl
    · exact Or.inl ⟨e, rfl⟩

/-- C10: `from_text` accepts strings outside the image of `to_text`:
`"007v3"` is `to_text` of no handle, yet parses to the same handle as
`"7v3"`; so `from_text` is not injective on accepted inputs and
`to_text (from_text s) = s` fails for the accepted `s = "007v3"`. -/
theorem parse_accepts_noncanonical :
    (∀ h : Entity, entityLabel h ≠ ['0', '0', '7', 'v', '3'])
  ∧ Entity.parse ['0', '0', '7', 'v', '3'] = some handle73
  ∧ Entity.parse ['7', 'v', '3'] = some handle73
  ∧ entityLabel handle73 = ['7', 'v', '3'] := by
  refine ⟨fun h heq => ?_, by decide, by decide, by decide⟩
  have hp := parse_label h
  rw [heq] at hp
  have h73 : Entity.parse ['0', '0', '7', 'v', '3'] = some handle73 := by decide
  rw [h73] at hp
  have hh : h = handle73 := (Option.some.inj hp).symm
  subst hh
  exact absurd heq (by decide)
